import Mathlib

/-!
# `jx delete quickstartlocation`

A shallow embedding of `pkg/jx/cmd/delete_quickstart_location.go`: the flag
defaults installed by `NewCmdDeleteQuickstartLocation`, the method
`DeleteQuickstartLocationOptions.Run` and the removal callback it hands to
`modifyDevEnvironment`.

Go values are modelled as follows.

* `string` is `String`; `==` on strings is equality.
* A slice is a `List`; `s[0:i]` is `List.take i`, `s[i+1:]` is
  `List.drop (i + 1)` and `append(a, b...)` is `a ++ b`.
* `error` is `Option Error` (`none` is `nil`); a `(T, error)` result is
  `Except Error T`.
* A `map[string]T` is an association list searched from the most recent
  assignment; reading an absent key gives the zero value of `T`.
* The collaborators that live outside the file (client construction, CRD
  registration, listing, the picker, `UrlJoin`, `ColorInfo`, the update
  helper) are the fields of `Collaborators`; `Run` records every call it makes
  to one of the effectful ones in a trace.
-/

set_option autoImplicit false

namespace Jx

/-! ## Data model -/

/-- Modelled from the spec: `v1.QuickStartLocation`, whose declaration is in
`pkg/apis/jenkins.io/v1`; the spec's data model gives it the two fields this
command reads, `GitURL` and `Owner`. -/
structure QuickStartLocation where
  GitURL : String
  Owner : String
deriving DecidableEq, Repr

/-- The zero value of `v1.QuickStartLocation` (what a Go map read returns for
an absent key). -/
def QuickStartLocation.zero : QuickStartLocation := ⟨"", ""⟩

/-- Modelled from the spec: `v1.TeamSettings` holds the ordered sequence of
quickstart locations "among other fields"; the other fields are `other`. -/
structure TeamSettings (τ : Type) where
  QuickstartLocations : List QuickStartLocation
  other : τ

/-- Modelled from the spec: `v1.EnvironmentSpec`, which embeds the team
settings; the rest of the spec is `other`. -/
structure EnvironmentSpec (σ τ : Type) where
  TeamSettings : TeamSettings τ
  other : σ

/-- Modelled from the spec: `v1.Environment`, the persisted resource that
embeds the team settings; everything outside `Spec` is `metadata`. -/
structure Environment (μ σ τ : Type) where
  metadata : μ
  Spec : EnvironmentSpec σ τ

/-- Go `error` values met in this file: `fmt.Errorf(text)`, the value of
`util.MissingOption(name)`, and any other error a collaborator returns. -/
inductive Error where
  | errorf (text : String)
  | missingOption (name : String)
  | other (text : String)
deriving DecidableEq, Repr

/-- Modelled from the spec: the constant `optionGitUrl`, the name of the
`--url` flag. -/
def optionGitUrl : String := "url"

/-- Modelled from the spec: the constant `optionOwner`, the name of the
`--owner` flag. -/
def optionOwner : String := "owner"

/-- Modelled from the spec: the constant `gits.GitHubURL`, the default of the
`--url` flag, "a well-known public git host URL". -/
def GitHubURL : String := "https://github.com"

/-- The fields of `DeleteQuickstartLocationOptions` that `Run` reads:
`BatchMode` (from the embedded `CommonOptions`), `GitUrl` and `Owner`. -/
structure DeleteQuickstartLocationOptions where
  BatchMode : Bool
  GitUrl : String
  Owner : String
deriving DecidableEq, Repr

/-- What one invocation of the removal callback leaves behind: the returned
error, the environment it was handed (after mutation) and the messages it
printed through `o.Printf`, in order. -/
structure CallbackResult (μ σ τ : Type) where
  err : Option Error
  env : Environment μ σ τ
  out : List String

/-- The collaborators of `Run` that are defined outside the file. `κ` is the
type of the client returned by `JXClientAndDevNamespace`. -/
structure Collaborators (κ μ σ τ : Type) where
  JXClientAndDevNamespace : Except Error (κ × String)
  registerEnvironmentCRD : Option Error
  GetQuickstartLocations : κ → String → Except Error (List QuickStartLocation)
  PickName : List String → String → Except Error String
  UrlJoin : String → String → String
  ColorInfo : String → String
  modifyDevEnvironment :
    κ → String → (Environment μ σ τ → CallbackResult μ σ τ) → Option Error

/-- The calls `Run` makes to its effectful collaborators. -/
inductive Event where
  | JXClientAndDevNamespace
  | registerEnvironmentCRD
  | GetQuickstartLocations
  | PickName (names : List String) (message : String)
  | modifyDevEnvironment
deriving DecidableEq, Repr

/-- The outcome of `Run`: the returned error, the receiver `o` as `Run` leaves
it, and the collaborator calls made, in order. -/
structure RunResult where
  err : Option Error
  options : DeleteQuickstartLocationOptions
  trace : List Event
deriving DecidableEq, Repr

variable {κ μ σ τ : Type}

/-! ## `NewCmdDeleteQuickstartLocation`: flag defaults -/

/-- The options after flag parsing: `StringVarP(&options.GitUrl, optionGitUrl,
"u", gits.GitHubURL, ...)` and `StringVarP(&options.Owner, optionOwner, "o",
"", ...)`. A flag that is absent from the command line (`none`) leaves its
default in place. -/
def NewCmdDeleteQuickstartLocation (batchMode : Bool) (url owner : Option String) :
    DeleteQuickstartLocationOptions :=
  { BatchMode := batchMode
    GitUrl := url.getD GitHubURL
    Owner := owner.getD "" }

/-! ## The removal callback -/

/-- The loop `for i, l := range settings.QuickstartLocations` of the callback,
started at index `i` on the elements not yet visited: the index and value of
the first element with `l.GitURL == o.GitUrl && l.Owner == o.Owner`, or `none`
when the loop runs to its end. -/
def callbackLoop (gitUrl owner : String) :
    Nat → List QuickStartLocation → Option (Nat × QuickStartLocation)
  | _, [] => none
  | i, l :: rest =>
    if l.GitURL = gitUrl ∧ l.Owner = owner then some (i, l)
    else callbackLoop gitUrl owner (i + 1) rest

/-- The text of the error the callback returns when no location matches. -/
def notFoundText (gitUrl owner : String) : String :=
  "No quickstart location found for git URL: " ++ gitUrl ++ " and owner: " ++ owner

/-- The message the callback prints for the removed element `l`. -/
def removingMessage (d : Collaborators κ μ σ τ) (l : QuickStartLocation) : String :=
  "Removing quickstart git owner " ++ d.ColorInfo (d.UrlJoin l.GitURL l.Owner) ++ "\n"

/-- The closure `callback` of `Run`, applied to `env`; `o` is the receiver as
it stands when the closure runs. -/
def callback (d : Collaborators κ μ σ τ) (o : DeleteQuickstartLocationOptions)
    (env : Environment μ σ τ) : CallbackResult μ σ τ :=
  let settings := env.Spec.TeamSettings
  match callbackLoop o.GitUrl o.Owner 0 settings.QuickstartLocations with
  | some (i, l) =>
    { err := none
      env :=
        { env with
          Spec :=
            { env.Spec with
              TeamSettings :=
                { settings with
                  QuickstartLocations :=
                    settings.QuickstartLocations.take i ++
                      settings.QuickstartLocations.drop (i + 1) } } }
      out := [removingMessage d l] }
  | none =>
    { err := some (Error.errorf (notFoundText o.GitUrl o.Owner))
      env := env
      out := [] }

/-! ## `Run` -/

/-- The picker's prompt. -/
def pickMessage : String :=
  "Pick the quickstart git owner to remove from the team settings: "

/-- The loop that fills `names` and `m` from `locations`: for each location,
`m[key] = loc` and `names = append(names, key)` with
`key := util.UrlJoin(loc.GitURL, loc.Owner)`. The newest assignment is at the
head of the association list. -/
def pickTable (d : Collaborators κ μ σ τ) (locations : List QuickStartLocation) :
    List String × List (String × QuickStartLocation) :=
  locations.foldl
    (fun acc loc =>
      let key := d.UrlJoin loc.GitURL loc.Owner
      (acc.1 ++ [key], (key, loc) :: acc.2))
    ([], [])

/-- The map read `m[name]`: the value last assigned to `name`, or the zero
value. -/
def mapIndex (m : List (String × QuickStartLocation)) (name : String) :
    QuickStartLocation :=
  (m.lookup name).getD QuickStartLocation.zero

/-- The last two statements of `Run`: build the callback from the receiver and
return what `modifyDevEnvironment` returns. -/
def runUpdate (d : Collaborators κ μ σ τ) (jxClient : κ) (ns : String)
    (o : DeleteQuickstartLocationOptions) (trace : List Event) : RunResult :=
  { err := d.modifyDevEnvironment jxClient ns (callback d o)
    options := o
    trace := trace ++ [Event.modifyDevEnvironment] }

/-- The method `DeleteQuickstartLocationOptions.Run`. -/
def Run (d : Collaborators κ μ σ τ) (o : DeleteQuickstartLocationOptions) : RunResult :=
  match d.JXClientAndDevNamespace with
  | .error err => ⟨some err, o, [Event.JXClientAndDevNamespace]⟩
  | .ok (jxClient, ns) =>
    match d.registerEnvironmentCRD with
    | some err => ⟨some err, o, [Event.JXClientAndDevNamespace, Event.registerEnvironmentCRD]⟩
    | none =>
      let t3 := [Event.JXClientAndDevNamespace, Event.registerEnvironmentCRD,
        Event.GetQuickstartLocations]
      match d.GetQuickstartLocations jxClient ns with
      | .error err => ⟨some err, o, t3⟩
      | .ok locations =>
        if o.GitUrl = "" ∨ o.Owner = "" then
          if o.BatchMode then
            if o.GitUrl = "" then
              ⟨some (Error.missingOption optionGitUrl), o, t3⟩
            else if o.Owner = "" then
              ⟨some (Error.missingOption optionOwner), o, t3⟩
            else
              runUpdate d jxClient ns o t3
          else
            let names := (pickTable d locations).1
            let m := (pickTable d locations).2
            let t4 := t3 ++ [Event.PickName names pickMessage]
            match d.PickName names pickMessage with
            | .error err => ⟨some err, o, t4⟩
            | .ok name =>
              if name = "" then
                ⟨some (Error.errorf "No owner name chosen"), o, t4⟩
              else
                let loc := mapIndex m name
                runUpdate d jxClient ns
                  { o with Owner := loc.Owner, GitUrl := loc.GitURL } t4
        else
          runUpdate d jxClient ns o t3

/-! ## Sample collaborators -/

/-- A join of the shape the spec describes, `<url>/<owner>`. -/
def sampleUrlJoin (url owner : String) : String := url ++ "/" ++ owner

/-- Sample collaborators: every step succeeds, the team has the locations
`locs`, the picker answers `pick`, and the update helper runs the callback
once on an environment holding `locs` and returns its error. -/
def sampleDeps (locs : List QuickStartLocation) (pick : Except Error String) :
    Collaborators Unit Unit Unit Unit :=
  { JXClientAndDevNamespace := .ok ((), "jx")
    registerEnvironmentCRD := none
    GetQuickstartLocations := fun _ _ => .ok locs
    PickName := fun _ _ => pick
    UrlJoin := sampleUrlJoin
    ColorInfo := fun s => s
    modifyDevEnvironment := fun _ _ cb => (cb ⟨(), ⟨⟨locs, ()⟩, ()⟩⟩).err }

/-- Sample collaborators with the outcome of each of the four fallible steps
before the update given explicitly; the update helper returns `update`
without running the callback. -/
def stubDeps (client : Except Error (Unit × String)) (crd : Option Error)
    (list : Except Error (List QuickStartLocation)) (pick : Except Error String)
    (update : Option Error) : Collaborators Unit Unit Unit Unit :=
  { JXClientAndDevNamespace := client
    registerEnvironmentCRD := crd
    GetQuickstartLocations := fun _ _ => list
    PickName := fun _ _ => pick
    UrlJoin := sampleUrlJoin
    ColorInfo := fun s => s
    modifyDevEnvironment := fun _ _ _ => update }

/-- An environment whose team settings hold `locs`. -/
def sampleEnv (locs : List QuickStartLocation) : Environment Unit Unit Unit :=
  ⟨(), ⟨⟨locs, ()⟩, ()⟩⟩

/-- The settings of the spec's examples. -/
def exampleLocations : List QuickStartLocation :=
  [⟨"https://github.com", "acme"⟩, ⟨"https://github.com", "beta"⟩]

/-! ## The loop of the callback -/

theorem callbackLoop_eq_none (u w : String) (qs : List QuickStartLocation) (i : Nat)
    (h : ∀ l ∈ qs, ¬(l.GitURL = u ∧ l.Owner = w)) :
    callbackLoop u w i qs = none := by
  induction qs generalizing i with
  | nil => rfl
  | cons a rest ih =>
    have ha : ¬(a.GitURL = u ∧ a.Owner = w) := h a (List.mem_cons_self a rest)
    have hrest : ∀ l ∈ rest, ¬(l.GitURL = u ∧ l.Owner = w) :=
      fun l hl => h l (List.mem_cons_of_mem a hl)
    rw [callbackLoop, if_neg ha]
    exact ih (i + 1) hrest

theorem callbackLoop_eq_some (u w : String) (qs : List QuickStartLocation) (i : Nat)
    (h : ∃ l ∈ qs, l.GitURL = u ∧ l.Owner = w) :
    ∃ pre l post,
      qs = pre ++ l :: post ∧
      (∀ x ∈ pre, ¬(x.GitURL = u ∧ x.Owner = w)) ∧
      (l.GitURL = u ∧ l.Owner = w) ∧
      callbackLoop u w i qs = some (i + pre.length, l) := by
  induction qs generalizing i with
  | nil =>
    obtain ⟨l, hl, _⟩ := h
    cases hl
  | cons a rest ih =>
    by_cases ha : a.GitURL = u ∧ a.Owner = w
    · refine ⟨[], a, rest, rfl, ?_, ha, ?_⟩
      · intro x hx
        cases hx
      · rw [callbackLoop, if_pos ha]
        rfl
    · have hrest : ∃ l ∈ rest, l.GitURL = u ∧ l.Owner = w := by
        obtain ⟨l, hl, hm⟩ := h
        rcases List.mem_cons.mp hl with rfl | hl
        · exact absurd hm ha
        · exact ⟨l, hl, hm⟩
      obtain ⟨pre, l, post, hqs, hpre, hl, hloop⟩ := ih (i + 1) hrest
      refine ⟨a :: pre, l, post, ?_, ?_, hl, ?_⟩
      · rw [hqs]
        rfl
      · intro x hx
        rcases List.mem_cons.mp hx with rfl | hx
        · exact ha
        · exact hpre x hx
      · rw [callbackLoop, if_neg ha, hloop, List.length_cons]
        congr 2
        omega

theorem take_append_drop_succ (pre post : List QuickStartLocation) (l : QuickStartLocation) :
    (pre ++ l :: post).take pre.length ++ (pre ++ l :: post).drop (pre.length + 1) =
      pre ++ post := by
  have h1 : (pre ++ l :: post).take pre.length = pre := by simp
  have h2 : (pre ++ l :: post).drop (pre.length + 1) = post := by
    rw [← List.drop_drop]
    simp
  rw [h1, h2]

/-- The callback on a list with a match, in terms of the split of the list at
the first matching element. -/
theorem callback_of_match (d : Collaborators κ μ σ τ) (o : DeleteQuickstartLocationOptions)
    (env : Environment μ σ τ)
    (h : ∃ l ∈ env.Spec.TeamSettings.QuickstartLocations,
      l.GitURL = o.GitUrl ∧ l.Owner = o.Owner) :
    ∃ pre l post,
      env.Spec.TeamSettings.QuickstartLocations = pre ++ l :: post ∧
      (∀ x ∈ pre, ¬(x.GitURL = o.GitUrl ∧ x.Owner = o.Owner)) ∧
      (l.GitURL = o.GitUrl ∧ l.Owner = o.Owner) ∧
      (callback d o env).err = none ∧
      (callback d o env).env.Spec.TeamSettings.QuickstartLocations = pre ++ post ∧
      (callback d o env).out = [removingMessage d l] := by
  obtain ⟨pre, l, post, hqs, hpre, hl, hloop⟩ :=
    callbackLoop_eq_some o.GitUrl o.Owner env.Spec.TeamSettings.QuickstartLocations 0 h
  refine ⟨pre, l, post, hqs, hpre, hl, ?_⟩
  simp only [callback, hloop, Nat.zero_add]
  refine ⟨trivial, ?_, trivial⟩
  rw [hqs]
  exact take_append_drop_succ pre post l

/-- The callback on a list without a match. -/
theorem callback_of_no_match (d : Collaborators κ μ σ τ) (o : DeleteQuickstartLocationOptions)
    (env : Environment μ σ τ)
    (h : ∀ l ∈ env.Spec.TeamSettings.QuickstartLocations,
      ¬(l.GitURL = o.GitUrl ∧ l.Owner = o.Owner)) :
    callback d o env =
      { err := some (Error.errorf (notFoundText o.GitUrl o.Owner)), env := env, out := [] } := by
  have hloop := callbackLoop_eq_none o.GitUrl o.Owner env.Spec.TeamSettings.QuickstartLocations 0 h
  simp only [callback, hloop]

/-! ## The removal callback: what it removes -/

/-- C1. When some element of the list has `GitURL = o.GitUrl` and
`Owner = o.Owner`, the callback returns no error and leaves the list with the
element at the first matching index removed: the list splits as
`pre ++ l :: post` with no match in `pre` and `l` a match, the result is
`pre ++ post` (the original with index `pre.length` erased), its length is the
original length minus one, and it is a sublist of the original, so the
remaining elements keep their relative order. -/
theorem callback_removes_first_match (d : Collaborators κ μ σ τ)
    (o : DeleteQuickstartLocationOptions) (env : Environment μ σ τ)
    (h : ∃ l ∈ env.Spec.TeamSettings.QuickstartLocations,
      l.GitURL = o.GitUrl ∧ l.Owner = o.Owner) :
    (callback d o env).err = none ∧
    ∃ pre l post,
      env.Spec.TeamSettings.QuickstartLocations = pre ++ l :: post ∧
      (∀ x ∈ pre, ¬(x.GitURL = o.GitUrl ∧ x.Owner = o.Owner)) ∧
      (l.GitURL = o.GitUrl ∧ l.Owner = o.Owner) ∧
      (callback d o env).env.Spec.TeamSettings.QuickstartLocations = pre ++ post ∧
      (callback d o env).env.Spec.TeamSettings.QuickstartLocations =
        env.Spec.TeamSettings.QuickstartLocations.eraseIdx pre.length ∧
      (callback d o env).env.Spec.TeamSettings.QuickstartLocations.length =
        env.Spec.TeamSettings.QuickstartLocations.length - 1 ∧
      List.Sublist (callback d o env).env.Spec.TeamSettings.QuickstartLocations
        env.Spec.TeamSettings.QuickstartLocations := by
  obtain ⟨pre, l, post, hqs, hpre, hl, herr, hres, _⟩ := callback_of_match d o env h
  refine ⟨herr, pre, l, post, hqs, hpre, hl, hres, ?_, ?_, ?_⟩
  · rw [hres, hqs, List.eraseIdx_append_of_length_le (Nat.le_refl _)]
    simp
  · rw [hres, hqs]
    simp
  · rw [hres, hqs]
    exact List.Sublist.append_left (List.sublist_cons_self l post) pre

theorem callback_removes_first_match_witness :
    (callback (sampleDeps exampleLocations (.ok "")) ⟨false, "https://github.com", "beta"⟩
        (sampleEnv exampleLocations)).err = none ∧
    ∃ pre l post,
      (sampleEnv exampleLocations).Spec.TeamSettings.QuickstartLocations = pre ++ l :: post ∧
      (∀ x ∈ pre, ¬(x.GitURL = "https://github.com" ∧ x.Owner = "beta")) ∧
      (l.GitURL = "https://github.com" ∧ l.Owner = "beta") ∧
      (callback (sampleDeps exampleLocations (.ok "")) ⟨false, "https://github.com", "beta"⟩
        (sampleEnv exampleLocations)).env.Spec.TeamSettings.QuickstartLocations = pre ++ post ∧
      (callback (sampleDeps exampleLocations (.ok "")) ⟨false, "https://github.com", "beta"⟩
        (sampleEnv exampleLocations)).env.Spec.TeamSettings.QuickstartLocations =
        (sampleEnv exampleLocations).Spec.TeamSettings.QuickstartLocations.eraseIdx pre.length ∧
      (callback (sampleDeps exampleLocations (.ok "")) ⟨false, "https://github.com", "beta"⟩
        (sampleEnv exampleLocations)).env.Spec.TeamSettings.QuickstartLocations.length =
        (sampleEnv exampleLocations).Spec.TeamSettings.QuickstartLocations.length - 1 ∧
      List.Sublist
        (callback (sampleDeps exampleLocations (.ok "")) ⟨false, "https://github.com", "beta"⟩
          (sampleEnv exampleLocations)).env.Spec.TeamSettings.QuickstartLocations
        (sampleEnv exampleLocations).Spec.TeamSettings.QuickstartLocations :=
  callback_removes_first_match (sampleDeps exampleLocations (.ok ""))
    ⟨false, "https://github.com", "beta"⟩ (sampleEnv exampleLocations)
    ⟨⟨"https://github.com", "beta"⟩, by decide, by decide⟩

/-- The first example of the spec, evaluated: removing
`(https://github.com, acme)` from the two example locations succeeds, leaves
the `beta` location and prints one message naming `https://github.com/acme`. -/
theorem callback_example_removed :
    callback (sampleDeps exampleLocations (.ok "")) ⟨false, "https://github.com", "acme"⟩
        (sampleEnv exampleLocations) =
      { err := none
        env := sampleEnv [⟨"https://github.com", "beta"⟩]
        out := ["Removing quickstart git owner https://github.com/acme\n"] } := by
  rfl

/-- C2, refuted as stated: on the list
`[(https://github.com, acme), (https://github.com, acme)]` the list contains
the target `(https://github.com, acme)`, the callback removes the first
element only and the list it leaves, `[(https://github.com, acme)]`, still
contains an element equal to the pair. -/
theorem callback_keeps_second_duplicate :
    (∃ l ∈ (sampleEnv [⟨"https://github.com", "acme"⟩,
        ⟨"https://github.com", "acme"⟩]).Spec.TeamSettings.QuickstartLocations,
      l.GitURL = "https://github.com" ∧ l.Owner = "acme") ∧
    (callback (sampleDeps [] (.ok "")) ⟨false, "https://github.com", "acme"⟩
        (sampleEnv [⟨"https://github.com", "acme"⟩,
          ⟨"https://github.com", "acme"⟩])).env.Spec.TeamSettings.QuickstartLocations =
      [⟨"https://github.com", "acme"⟩] ∧
    ¬ ∀ l ∈ (callback (sampleDeps [] (.ok "")) ⟨false, "https://github.com", "acme"⟩
        (sampleEnv [⟨"https://github.com", "acme"⟩,
          ⟨"https://github.com", "acme"⟩])).env.Spec.TeamSettings.QuickstartLocations,
      ¬(l.GitURL = "https://github.com" ∧ l.Owner = "acme") := by
  refine ⟨⟨⟨"https://github.com", "acme"⟩, by decide, by decide⟩, rfl, ?_⟩
  intro hall
  exact hall ⟨"https://github.com", "acme"⟩ (by decide) ⟨rfl, rfl⟩

/-- C2, amended. When some element matches the target, the callback leaves
exactly one matching element fewer than the list had; so the list it leaves
contains no element with that `(GitURL, Owner)` exactly when the original had
a single one. -/
theorem callback_removes_one_match (d : Collaborators κ μ σ τ)
    (o : DeleteQuickstartLocationOptions) (env : Environment μ σ τ)
    (h : ∃ l ∈ env.Spec.TeamSettings.QuickstartLocations,
      l.GitURL = o.GitUrl ∧ l.Owner = o.Owner) :
    (callback d o env).env.Spec.TeamSettings.QuickstartLocations.countP
        (fun l => decide (l.GitURL = o.GitUrl ∧ l.Owner = o.Owner)) + 1 =
      env.Spec.TeamSettings.QuickstartLocations.countP
        (fun l => decide (l.GitURL = o.GitUrl ∧ l.Owner = o.Owner)) ∧
    ((∀ l ∈ (callback d o env).env.Spec.TeamSettings.QuickstartLocations,
        ¬(l.GitURL = o.GitUrl ∧ l.Owner = o.Owner)) ↔
      env.Spec.TeamSettings.QuickstartLocations.countP
        (fun l => decide (l.GitURL = o.GitUrl ∧ l.Owner = o.Owner)) = 1) := by
  obtain ⟨pre, l, post, hqs, _, hl, _, hres, _⟩ := callback_of_match d o env h
  have hcount :
      (pre ++ post).countP (fun l => decide (l.GitURL = o.GitUrl ∧ l.Owner = o.Owner)) + 1 =
        (pre ++ l :: post).countP
          (fun l => decide (l.GitURL = o.GitUrl ∧ l.Owner = o.Owner)) := by
    have hp : decide (l.GitURL = o.GitUrl ∧ l.Owner = o.Owner) = true := decide_eq_true hl
    rw [List.countP_append, List.countP_append, List.countP_cons, if_pos hp]
    omega
  rw [hres, hqs]
  refine ⟨hcount, ?_⟩
  rw [← hcount]
  constructor
  · intro hnone
    have hzero :
        (pre ++ post).countP
          (fun l => decide (l.GitURL = o.GitUrl ∧ l.Owner = o.Owner)) = 0 := by
      rw [List.countP_eq_zero]
      intro x hx
      simpa using hnone x hx
    omega
  · intro hone x hx
    have hzero :
        (pre ++ post).countP
          (fun l => decide (l.GitURL = o.GitUrl ∧ l.Owner = o.Owner)) = 0 := by
      omega
    rw [List.countP_eq_zero] at hzero
    simpa using hzero x hx

theorem callback_removes_one_match_witness :
    (callback (sampleDeps exampleLocations (.ok "")) ⟨false, "https://github.com", "acme"⟩
        (sampleEnv exampleLocations)).env.Spec.TeamSettings.QuickstartLocations.countP
        (fun l => decide (l.GitURL = "https://github.com" ∧ l.Owner = "acme")) + 1 =
      (sampleEnv exampleLocations).Spec.TeamSettings.QuickstartLocations.countP
        (fun l => decide (l.GitURL = "https://github.com" ∧ l.Owner = "acme")) ∧
    ((∀ l ∈ (callback (sampleDeps exampleLocations (.ok ""))
          ⟨false, "https://github.com", "acme"⟩
          (sampleEnv exampleLocations)).env.Spec.TeamSettings.QuickstartLocations,
        ¬(l.GitURL = "https://github.com" ∧ l.Owner = "acme")) ↔
      (sampleEnv exampleLocations).Spec.TeamSettings.QuickstartLocations.countP
        (fun l => decide (l.GitURL = "https://github.com" ∧ l.Owner = "acme")) = 1) :=
  callback_removes_one_match (sampleDeps exampleLocations (.ok ""))
    ⟨false, "https://github.com", "acme"⟩ (sampleEnv exampleLocations)
    ⟨⟨"https://github.com", "acme"⟩, by decide, by decide⟩

/-! ## The removal callback: no match, output, frame -/

/-- C3. When no element of the list has both `GitURL = o.GitUrl` and
`Owner = o.Owner`, the callback returns the error whose text is
"No quickstart location found for git URL: <url> and owner: <owner>" and
leaves the environment, hence the location list, as it was. -/
theorem callback_not_found (d : Collaborators κ μ σ τ) (o : DeleteQuickstartLocationOptions)
    (env : Environment μ σ τ)
    (h : ∀ l ∈ env.Spec.TeamSettings.QuickstartLocations,
      ¬(l.GitURL = o.GitUrl ∧ l.Owner = o.Owner)) :
    (callback d o env).err =
      some (Error.errorf
        ("No quickstart location found for git URL: " ++ o.GitUrl ++ " and owner: " ++
          o.Owner)) ∧
    (callback d o env).env = env ∧
    (callback d o env).env.Spec.TeamSettings.QuickstartLocations =
      env.Spec.TeamSettings.QuickstartLocations := by
  rw [callback_of_no_match d o env h]
  exact ⟨rfl, rfl, rfl⟩

theorem callback_not_found_witness :
    (callback (sampleDeps exampleLocations (.ok "")) ⟨false, "https://gitlab.com", "acme"⟩
        (sampleEnv exampleLocations)).err =
      some (Error.errorf
        ("No quickstart location found for git URL: " ++ "https://gitlab.com" ++
          " and owner: " ++ "acme")) ∧
    (callback (sampleDeps exampleLocations (.ok "")) ⟨false, "https://gitlab.com", "acme"⟩
        (sampleEnv exampleLocations)).env = sampleEnv exampleLocations ∧
    (callback (sampleDeps exampleLocations (.ok "")) ⟨false, "https://gitlab.com", "acme"⟩
        (sampleEnv exampleLocations)).env.Spec.TeamSettings.QuickstartLocations =
      (sampleEnv exampleLocations).Spec.TeamSettings.QuickstartLocations :=
  callback_not_found (sampleDeps exampleLocations (.ok ""))
    ⟨false, "https://gitlab.com", "acme"⟩ (sampleEnv exampleLocations) (by decide)

/-- The second example of the spec, evaluated: removing
`(https://gitlab.com, acme)` from the two example locations fails with the
not-found error, changes nothing and prints nothing. -/
theorem callback_example_not_found :
    callback (sampleDeps exampleLocations (.ok "")) ⟨false, "https://gitlab.com", "acme"⟩
        (sampleEnv exampleLocations) =
      { err := some (Error.errorf
          "No quickstart location found for git URL: https://gitlab.com and owner: acme")
        env := sampleEnv exampleLocations
        out := [] } := by
  rfl

/-- C9. One invocation of the callback either succeeds and prints exactly one
message, "Removing quickstart git owner " followed by the colorized `UrlJoin`
of the removed element (the first match, at index `pre.length`) and a newline,
or fails and prints nothing. -/
theorem callback_output (d : Collaborators κ μ σ τ) (o : DeleteQuickstartLocationOptions)
    (env : Environment μ σ τ) :
    ((callback d o env).err = none ∧
      ∃ pre l post,
        env.Spec.TeamSettings.QuickstartLocations = pre ++ l :: post ∧
        (∀ x ∈ pre, ¬(x.GitURL = o.GitUrl ∧ x.Owner = o.Owner)) ∧
        (l.GitURL = o.GitUrl ∧ l.Owner = o.Owner) ∧
        (callback d o env).env.Spec.TeamSettings.QuickstartLocations = pre ++ post ∧
        (callback d o env).out =
          ["Removing quickstart git owner " ++ d.ColorInfo (d.UrlJoin l.GitURL l.Owner) ++
            "\n"]) ∨
    ((callback d o env).err ≠ none ∧
      (callback d o env).env = env ∧
      (callback d o env).out = []) := by
  by_cases h : ∃ l ∈ env.Spec.TeamSettings.QuickstartLocations,
      l.GitURL = o.GitUrl ∧ l.Owner = o.Owner
  · left
    obtain ⟨pre, l, post, hqs, hpre, hl, herr, hres, hout⟩ := callback_of_match d o env h
    exact ⟨herr, pre, l, post, hqs, hpre, hl, hres, hout⟩
  · right
    have hno : ∀ l ∈ env.Spec.TeamSettings.QuickstartLocations,
        ¬(l.GitURL = o.GitUrl ∧ l.Owner = o.Owner) :=
      fun l hl hm => h ⟨l, hl, hm⟩
    rw [callback_of_no_match d o env hno]
    exact ⟨by simp, rfl, rfl⟩

/-- C10. On both paths the callback changes at most the `QuickstartLocations`
sequence inside `Spec.TeamSettings`: the metadata, the rest of `Spec` and the
rest of `TeamSettings` are what they were, so the environment it leaves is the
one it was handed with that one sequence replaced. -/
theorem callback_frame (d : Collaborators κ μ σ τ) (o : DeleteQuickstartLocationOptions)
    (env : Environment μ σ τ) :
    (callback d o env).env.metadata = env.metadata ∧
    (callback d o env).env.Spec.other = env.Spec.other ∧
    (callback d o env).env.Spec.TeamSettings.other = env.Spec.TeamSettings.other ∧
    (callback d o env).env =
      { metadata := env.metadata
        Spec :=
          { other := env.Spec.other
            TeamSettings :=
              { other := env.Spec.TeamSettings.other
                QuickstartLocations :=
                  (callback d o env).env.Spec.TeamSettings.QuickstartLocations } } } := by
  cases hloop : callbackLoop o.GitUrl o.Owner 0 env.Spec.TeamSettings.QuickstartLocations with
  | none =>
    have hcb : callback d o env =
        { err := some (Error.errorf (notFoundText o.GitUrl o.Owner)), env := env, out := [] } := by
      simp only [callback, hloop]
    rw [hcb]
    exact ⟨rfl, rfl, rfl, rfl⟩
  | some p =>
    obtain ⟨i, l⟩ := p
    have hcb : callback d o env =
        { err := none
          env :=
            { metadata := env.metadata
              Spec :=
                { other := env.Spec.other
                  TeamSettings :=
                    { other := env.Spec.TeamSettings.other
                      QuickstartLocations :=
                        env.Spec.TeamSettings.QuickstartLocations.take i ++
                          env.Spec.TeamSettings.QuickstartLocations.drop (i + 1) } } }
          out := [removingMessage d l] } := by
      simp only [callback, hloop]
    rw [hcb]
    exact ⟨rfl, rfl, rfl, rfl⟩

/-! ## `Run`, path by path -/

theorem Run_client_error (d : Collaborators κ μ σ τ) (o : DeleteQuickstartLocationOptions)
    (e : Error) (hc : d.JXClientAndDevNamespace = .error e) :
    Run d o = ⟨some e, o, [Event.JXClientAndDevNamespace]⟩ := by
  simp [Run, hc]

theorem Run_crd_error (d : Collaborators κ μ σ τ) (o : DeleteQuickstartLocationOptions)
    (c : κ) (ns : String) (e : Error)
    (hc : d.JXClientAndDevNamespace = .ok (c, ns))
    (hr : d.registerEnvironmentCRD = some e) :
    Run d o = ⟨some e, o, [Event.JXClientAndDevNamespace, Event.registerEnvironmentCRD]⟩ := by
  simp [Run, hc, hr]

theorem Run_list_error (d : Collaborators κ μ σ τ) (o : DeleteQuickstartLocationOptions)
    (c : κ) (ns : String) (e : Error)
    (hc : d.JXClientAndDevNamespace = .ok (c, ns))
    (hr : d.registerEnvironmentCRD = none)
    (hg : d.GetQuickstartLocations c ns = .error e) :
    Run d o = ⟨some e, o, [Event.JXClientAndDevNamespace, Event.registerEnvironmentCRD,
      Event.GetQuickstartLocations]⟩ := by
  simp [Run, hc, hr, hg]

theorem Run_batch_missing (d : Collaborators κ μ σ τ) (o : DeleteQuickstartLocationOptions)
    (c : κ) (ns : String) (locs : List QuickStartLocation)
    (hc : d.JXClientAndDevNamespace = .ok (c, ns))
    (hr : d.registerEnvironmentCRD = none)
    (hg : d.GetQuickstartLocations c ns = .ok locs)
    (hb : o.BatchMode = true)
    (h : o.GitUrl = "" ∨ o.Owner = "") :
    Run d o =
      ⟨some (Error.missingOption (if o.GitUrl = "" then optionGitUrl else optionOwner)), o,
        [Event.JXClientAndDevNamespace, Event.registerEnvironmentCRD,
          Event.GetQuickstartLocations]⟩ := by
  by_cases hu : o.GitUrl = ""
  · simp [Run, hc, hr, hg, hb, hu]
  · have hw : o.Owner = "" := h.resolve_left hu
    simp [Run, hc, hr, hg, hb, hu, hw]

theorem Run_given (d : Collaborators κ μ σ τ) (o : DeleteQuickstartLocationOptions)
    (c : κ) (ns : String) (locs : List QuickStartLocation)
    (hc : d.JXClientAndDevNamespace = .ok (c, ns))
    (hr : d.registerEnvironmentCRD = none)
    (hg : d.GetQuickstartLocations c ns = .ok locs)
    (hu : o.GitUrl ≠ "") (hw : o.Owner ≠ "") :
    Run d o =
      runUpdate d c ns o [Event.JXClientAndDevNamespace, Event.registerEnvironmentCRD,
        Event.GetQuickstartLocations] := by
  simp [Run, hc, hr, hg, hu, hw]

theorem Run_pick_error (d : Collaborators κ μ σ τ) (o : DeleteQuickstartLocationOptions)
    (c : κ) (ns : String) (locs : List QuickStartLocation) (e : Error)
    (hc : d.JXClientAndDevNamespace = .ok (c, ns))
    (hr : d.registerEnvironmentCRD = none)
    (hg : d.GetQuickstartLocations c ns = .ok locs)
    (hb : o.BatchMode = false)
    (h : o.GitUrl = "" ∨ o.Owner = "")
    (hp : d.PickName (pickTable d locs).1 pickMessage = .error e) :
    Run d o =
      ⟨some e, o, [Event.JXClientAndDevNamespace, Event.registerEnvironmentCRD,
        Event.GetQuickstartLocations, Event.PickName (pickTable d locs).1 pickMessage]⟩ := by
  simp [Run, hc, hr, hg, hb, h, hp]

theorem Run_pick_empty (d : Collaborators κ μ σ τ) (o : DeleteQuickstartLocationOptions)
    (c : κ) (ns : String) (locs : List QuickStartLocation)
    (hc : d.JXClientAndDevNamespace = .ok (c, ns))
    (hr : d.registerEnvironmentCRD = none)
    (hg : d.GetQuickstartLocations c ns = .ok locs)
    (hb : o.BatchMode = false)
    (h : o.GitUrl = "" ∨ o.Owner = "")
    (hp : d.PickName (pickTable d locs).1 pickMessage = .ok "") :
    Run d o =
      ⟨some (Error.errorf "No owner name chosen"), o,
        [Event.JXClientAndDevNamespace, Event.registerEnvironmentCRD,
          Event.GetQuickstartLocations, Event.PickName (pickTable d locs).1 pickMessage]⟩ := by
  simp [Run, hc, hr, hg, hb, h, hp]

theorem Run_pick_ok (d : Collaborators κ μ σ τ) (o : DeleteQuickstartLocationOptions)
    (c : κ) (ns : String) (locs : List QuickStartLocation) (name : String)
    (hc : d.JXClientAndDevNamespace = .ok (c, ns))
    (hr : d.registerEnvironmentCRD = none)
    (hg : d.GetQuickstartLocations c ns = .ok locs)
    (hb : o.BatchMode = false)
    (h : o.GitUrl = "" ∨ o.Owner = "")
    (hp : d.PickName (pickTable d locs).1 pickMessage = .ok name)
    (hn : name ≠ "") :
    Run d o =
      runUpdate d c ns
        { o with
          Owner := (mapIndex (pickTable d locs).2 name).Owner
          GitUrl := (mapIndex (pickTable d locs).2 name).GitURL }
        [Event.JXClientAndDevNamespace, Event.registerEnvironmentCRD,
          Event.GetQuickstartLocations, Event.PickName (pickTable d locs).1 pickMessage] := by
  simp [Run, hc, hr, hg, hb, h, hp, hn]

/-! ## The picker's table -/

theorem pickTable_foldl (d : Collaborators κ μ σ τ) (locs : List QuickStartLocation)
    (acc : List String × List (String × QuickStartLocation)) :
    locs.foldl
        (fun acc loc =>
          let key := d.UrlJoin loc.GitURL loc.Owner
          (acc.1 ++ [key], (key, loc) :: acc.2))
        acc =
      (acc.1 ++ locs.map (fun l => d.UrlJoin l.GitURL l.Owner),
        (locs.map (fun l => (d.UrlJoin l.GitURL l.Owner, l))).reverse ++ acc.2) := by
  induction locs generalizing acc with
  | nil => simp
  | cons a rest ih =>
    rw [List.foldl_cons, ih]
    simp

/-- The names offered to the picker are the display keys of the listed
locations, in order. -/
theorem pickTable_names (d : Collaborators κ μ σ τ) (locs : List QuickStartLocation) :
    (pickTable d locs).1 = locs.map (fun l => d.UrlJoin l.GitURL l.Owner) := by
  rw [pickTable, pickTable_foldl]
  simp

theorem pickTable_map (d : Collaborators κ μ σ τ) (locs : List QuickStartLocation) :
    (pickTable d locs).2 =
      (locs.map (fun l => (d.UrlJoin l.GitURL l.Owner, l))).reverse := by
  rw [pickTable, pickTable_foldl]
  simp

/-- Reading the map at the display key of a listed location gives a listed
location with that display key (the last one listed with it). -/
theorem mapIndex_pickTable (d : Collaborators κ μ σ τ) (locs : List QuickStartLocation)
    (name : String) (h : ∃ l ∈ locs, d.UrlJoin l.GitURL l.Owner = name) :
    mapIndex (pickTable d locs).2 name ∈ locs ∧
      d.UrlJoin (mapIndex (pickTable d locs).2 name).GitURL
        (mapIndex (pickTable d locs).2 name).Owner = name := by
  rw [pickTable_map]
  induction locs using List.reverseRecOn with
  | nil =>
    obtain ⟨l, hl, _⟩ := h
    cases hl
  | append_singleton init a ih =>
    by_cases ha : d.UrlJoin a.GitURL a.Owner = name
    · have hlook : mapIndex
          ((init ++ [a]).map (fun l => (d.UrlJoin l.GitURL l.Owner, l))).reverse name = a := by
        simp [mapIndex, List.lookup_cons, ha]
      rw [hlook]
      exact ⟨by simp, ha⟩
    · have hinit : ∃ l ∈ init, d.UrlJoin l.GitURL l.Owner = name := by
        obtain ⟨l, hl, hk⟩ := h
        rcases List.mem_append.mp hl with hl | hl
        · exact ⟨l, hl, hk⟩
        · rw [List.mem_singleton] at hl
          rw [hl] at hk
          exact absurd hk ha
      have hne : (name == d.UrlJoin a.GitURL a.Owner) = false := by
        rw [beq_eq_false_iff_ne]
        exact fun hEq => ha hEq.symm
      have hlook : mapIndex
          ((init ++ [a]).map (fun l => (d.UrlJoin l.GitURL l.Owner, l))).reverse name =
          mapIndex (init.map (fun l => (d.UrlJoin l.GitURL l.Owner, l))).reverse name := by
        simp [mapIndex, List.lookup_cons, hne]
      rw [hlook]
      exact ⟨List.mem_append_left _ (ih hinit).1, (ih hinit).2⟩

/-! ## `Run`: the missing-option and no-selection failures -/

/-- C5. In batch mode, with client acquisition, CRD registration and listing
succeeding and `GitUrl` or `Owner` empty: `Run` returns `MissingOption` for the
url option when `GitUrl` is empty (whatever `Owner` is) and for the owner
option otherwise; it has called the three earlier collaborators only, so the
picker is never consulted and `modifyDevEnvironment` never invoked; the
receiver is unchanged, and the outcome is the same whatever the picker and the
update helper are. -/
theorem run_batch_missing_option (d : Collaborators κ μ σ τ)
    (o : DeleteQuickstartLocationOptions) (c : κ) (ns : String)
    (locs : List QuickStartLocation)
    (hc : d.JXClientAndDevNamespace = .ok (c, ns))
    (hr : d.registerEnvironmentCRD = none)
    (hg : d.GetQuickstartLocations c ns = .ok locs)
    (hb : o.BatchMode = true)
    (h : o.GitUrl = "" ∨ o.Owner = "") :
    (Run d o).err =
      some (Error.missingOption (if o.GitUrl = "" then optionGitUrl else optionOwner)) ∧
    (Run d o).trace = [Event.JXClientAndDevNamespace, Event.registerEnvironmentCRD,
      Event.GetQuickstartLocations] ∧
    (∀ names message, Event.PickName names message ∉ (Run d o).trace) ∧
    Event.modifyDevEnvironment ∉ (Run d o).trace ∧
    (Run d o).options = o ∧
    ∀ (pick : List String → String → Except Error String)
      (update : κ → String → (Environment μ σ τ → CallbackResult μ σ τ) → Option Error),
      Run { d with PickName := pick, modifyDevEnvironment := update } o = Run d o := by
  have hrun := Run_batch_missing d o c ns locs hc hr hg hb h
  refine ⟨by rw [hrun], by rw [hrun], ?_, ?_, by rw [hrun], ?_⟩
  · intro names message
    rw [hrun]
    simp
  · rw [hrun]
    simp
  · intro pick update
    rw [hrun]
    exact Run_batch_missing { d with PickName := pick, modifyDevEnvironment := update } o c ns
      locs hc hr hg hb h

theorem run_batch_missing_option_witness :
    (Run (sampleDeps exampleLocations (.ok "")) ⟨true, "", ""⟩).err =
      some (Error.missingOption (if ("" : String) = "" then optionGitUrl else optionOwner)) ∧
    (Run (sampleDeps exampleLocations (.ok "")) ⟨true, "", ""⟩).trace =
      [Event.JXClientAndDevNamespace, Event.registerEnvironmentCRD,
        Event.GetQuickstartLocations] ∧
    (∀ names message, Event.PickName names message ∉
      (Run (sampleDeps exampleLocations (.ok "")) ⟨true, "", ""⟩).trace) ∧
    Event.modifyDevEnvironment ∉
      (Run (sampleDeps exampleLocations (.ok "")) ⟨true, "", ""⟩).trace ∧
    (Run (sampleDeps exampleLocations (.ok "")) ⟨true, "", ""⟩).options = ⟨true, "", ""⟩ ∧
    ∀ (pick : List String → String → Except Error String)
      (update : Unit → String → (Environment Unit Unit Unit → CallbackResult Unit Unit Unit) →
        Option Error),
      Run { sampleDeps exampleLocations (.ok "") with
          PickName := pick, modifyDevEnvironment := update } ⟨true, "", ""⟩ =
        Run (sampleDeps exampleLocations (.ok "")) ⟨true, "", ""⟩ :=
  run_batch_missing_option (sampleDeps exampleLocations (.ok "")) ⟨true, "", ""⟩ () "jx"
    exampleLocations rfl rfl rfl rfl (Or.inl rfl)

/-- Batch mode on concrete options: an empty url gives the url option whether
or not the owner is empty, a non-empty url with an empty owner gives the owner
option. -/
theorem run_batch_examples :
    (Run (sampleDeps exampleLocations (.ok "")) ⟨true, "", "acme"⟩).err =
      some (Error.missingOption "url") ∧
    (Run (sampleDeps exampleLocations (.ok "")) ⟨true, "", ""⟩).err =
      some (Error.missingOption "url") ∧
    (Run (sampleDeps exampleLocations (.ok "")) ⟨true, "https://github.com", ""⟩).err =
      some (Error.missingOption "owner") := by
  refine ⟨rfl, rfl, rfl⟩

/-- C6. In interactive mode with `GitUrl` or `Owner` empty and the earlier steps
succeeding, for every list of existing locations: when the picker returns the
empty string without error, `Run` fails with the error "No owner name chosen",
the receiver is unchanged and `modifyDevEnvironment` is never invoked (the
picker is the last collaborator called, and the outcome is the same whatever
the update helper is). -/
theorem run_no_owner_chosen (d : Collaborators κ μ σ τ)
    (o : DeleteQuickstartLocationOptions) (c : κ) (ns : String)
    (locs : List QuickStartLocation)
    (hc : d.JXClientAndDevNamespace = .ok (c, ns))
    (hr : d.registerEnvironmentCRD = none)
    (hg : d.GetQuickstartLocations c ns = .ok locs)
    (hb : o.BatchMode = false)
    (h : o.GitUrl = "" ∨ o.Owner = "")
    (hp : d.PickName (pickTable d locs).1 pickMessage = .ok "") :
    (Run d o).err = some (Error.errorf "No owner name chosen") ∧
    (Run d o).trace = [Event.JXClientAndDevNamespace, Event.registerEnvironmentCRD,
      Event.GetQuickstartLocations, Event.PickName (pickTable d locs).1 pickMessage] ∧
    Event.modifyDevEnvironment ∉ (Run d o).trace ∧
    (Run d o).options = o ∧
    ∀ (update : κ → String → (Environment μ σ τ → CallbackResult μ σ τ) → Option Error),
      Run { d with modifyDevEnvironment := update } o = Run d o := by
  have hrun := Run_pick_empty d o c ns locs hc hr hg hb h hp
  refine ⟨by rw [hrun], by rw [hrun], ?_, by rw [hrun], ?_⟩
  · rw [hrun]
    simp
  · intro update
    rw [hrun]
    exact Run_pick_empty { d with modifyDevEnvironment := update } o c ns locs hc hr hg hb h hp

theorem run_no_owner_chosen_witness :
    (Run (sampleDeps [] (.ok "")) ⟨false, "https://github.com", ""⟩).err =
      some (Error.errorf "No owner name chosen") ∧
    (Run (sampleDeps [] (.ok "")) ⟨false, "https://github.com", ""⟩).trace =
      [Event.JXClientAndDevNamespace, Event.registerEnvironmentCRD,
        Event.GetQuickstartLocations,
        Event.PickName (pickTable (sampleDeps [] (.ok "")) []).1 pickMessage] ∧
    Event.modifyDevEnvironment ∉
      (Run (sampleDeps [] (.ok "")) ⟨false, "https://github.com", ""⟩).trace ∧
    (Run (sampleDeps [] (.ok "")) ⟨false, "https://github.com", ""⟩).options =
      ⟨false, "https://github.com", ""⟩ ∧
    ∀ (update : Unit → String → (Environment Unit Unit Unit → CallbackResult Unit Unit Unit) →
        Option Error),
      Run { sampleDeps [] (.ok "") with modifyDevEnvironment := update }
          ⟨false, "https://github.com", ""⟩ =
        Run (sampleDeps [] (.ok "")) ⟨false, "https://github.com", ""⟩ :=
  run_no_owner_chosen (sampleDeps [] (.ok "")) ⟨false, "https://github.com", ""⟩ () "jx" []
    rfl rfl rfl rfl (Or.inr rfl) rfl

/-! ## `Run`: the interactive pick -/

theorem sampleUrlJoin_ne_empty (u w : String) : sampleUrlJoin u w ≠ "" := by
  intro h
  have hlen := congrArg String.length h
  simp only [sampleUrlJoin, String.length_append] at hlen
  have hslash : "/".length = 1 := rfl
  have hempty : "".length = 0 := rfl
  omega

/-- C7. In interactive mode with `GitUrl` or `Owner` empty and the earlier steps
succeeding, when the picker returns a name that is the display key
`UrlJoin(GitURL, Owner)` of at least one listed location (display keys are
never empty: `UrlJoin` puts a `/` between its arguments), the target `Run`
adopts, overwriting whatever `GitUrl` and `Owner` held, is the
`(GitURL, Owner)` of a member of the list whose display key is the selected
name; `Run` hands the callback for that target to the update helper, and the
callback applied to any environment holding that same list succeeds. -/
theorem run_adopts_picked_location (d : Collaborators κ μ σ τ)
    (o : DeleteQuickstartLocationOptions) (c : κ) (ns : String)
    (locs : List QuickStartLocation) (name : String)
    (hc : d.JXClientAndDevNamespace = .ok (c, ns))
    (hr : d.registerEnvironmentCRD = none)
    (hg : d.GetQuickstartLocations c ns = .ok locs)
    (hb : o.BatchMode = false)
    (h : o.GitUrl = "" ∨ o.Owner = "")
    (hjoin : ∀ u w, d.UrlJoin u w ≠ "")
    (hp : d.PickName (pickTable d locs).1 pickMessage = .ok name)
    (hkey : ∃ l ∈ locs, d.UrlJoin l.GitURL l.Owner = name) :
    ∃ l ∈ locs,
      d.UrlJoin l.GitURL l.Owner = name ∧
      (Run d o).options = ⟨o.BatchMode, l.GitURL, l.Owner⟩ ∧
      (Run d o).err = d.modifyDevEnvironment c ns (callback d (Run d o).options) ∧
      ∀ env : Environment μ σ τ, env.Spec.TeamSettings.QuickstartLocations = locs →
        (callback d (Run d o).options env).err = none := by
  have hn : name ≠ "" := by
    obtain ⟨l, _, hl⟩ := hkey
    rw [← hl]
    exact hjoin l.GitURL l.Owner
  have hrun := Run_pick_ok d o c ns locs name hc hr hg hb h hp hn
  obtain ⟨hmem, hk⟩ := mapIndex_pickTable d locs name hkey
  refine ⟨mapIndex (pickTable d locs).2 name, hmem, hk, ?_, ?_, ?_⟩
  · rw [hrun]
    rfl
  · rw [hrun]
    rfl
  · intro env henv
    rw [hrun]
    have hex : ∃ l ∈ env.Spec.TeamSettings.QuickstartLocations,
        l.GitURL = (mapIndex (pickTable d locs).2 name).GitURL ∧
          l.Owner = (mapIndex (pickTable d locs).2 name).Owner :=
      ⟨mapIndex (pickTable d locs).2 name, by rw [henv]; exact hmem, rfl, rfl⟩
    obtain ⟨_, _, _, _, _, _, herr, _⟩ :=
      callback_of_match d
        { o with
          Owner := (mapIndex (pickTable d locs).2 name).Owner
          GitUrl := (mapIndex (pickTable d locs).2 name).GitURL } env hex
    exact herr

theorem run_adopts_picked_location_witness :
    ∃ l ∈ exampleLocations,
      (sampleDeps exampleLocations (.ok "https://github.com/beta")).UrlJoin l.GitURL l.Owner =
        "https://github.com/beta" ∧
      (Run (sampleDeps exampleLocations (.ok "https://github.com/beta"))
        ⟨false, "https://gitlab.com", ""⟩).options = ⟨false, l.GitURL, l.Owner⟩ ∧
      (Run (sampleDeps exampleLocations (.ok "https://github.com/beta"))
        ⟨false, "https://gitlab.com", ""⟩).err =
        (sampleDeps exampleLocations (.ok "https://github.com/beta")).modifyDevEnvironment
          () "jx"
          (callback (sampleDeps exampleLocations (.ok "https://github.com/beta"))
            (Run (sampleDeps exampleLocations (.ok "https://github.com/beta"))
              ⟨false, "https://gitlab.com", ""⟩).options) ∧
      ∀ env : Environment Unit Unit Unit,
        env.Spec.TeamSettings.QuickstartLocations = exampleLocations →
        (callback (sampleDeps exampleLocations (.ok "https://github.com/beta"))
          (Run (sampleDeps exampleLocations (.ok "https://github.com/beta"))
            ⟨false, "https://gitlab.com", ""⟩).options env).err = none :=
  run_adopts_picked_location (sampleDeps exampleLocations (.ok "https://github.com/beta"))
    ⟨false, "https://gitlab.com", ""⟩ () "jx" exampleLocations "https://github.com/beta"
    rfl rfl rfl rfl (Or.inr rfl) sampleUrlJoin_ne_empty rfl
    ⟨⟨"https://github.com", "beta"⟩, by decide, by decide⟩

/-- The interactive pick on concrete inputs: the picked key
`https://github.com/beta` replaces the supplied url `https://gitlab.com` and
the empty owner by `(https://github.com, beta)`, and the update succeeds; a
name that is no key of the table makes the target the zero value
`("", "")`. -/
theorem run_pick_examples :
    Run (sampleDeps exampleLocations (.ok "https://github.com/beta"))
        ⟨false, "https://gitlab.com", ""⟩ =
      ⟨none, ⟨false, "https://github.com", "beta"⟩,
        [Event.JXClientAndDevNamespace, Event.registerEnvironmentCRD,
          Event.GetQuickstartLocations,
          Event.PickName ["https://github.com/acme", "https://github.com/beta"] pickMessage,
          Event.modifyDevEnvironment]⟩ ∧
    (Run (sampleDeps exampleLocations (.ok "elsewhere"))
        ⟨false, "https://gitlab.com", ""⟩).options = ⟨false, "", ""⟩ := by
  refine ⟨rfl, rfl⟩

/-! ## `Run`: error propagation and delegation -/

/-- C8. `Run` returns the first collaborator error unchanged and calls nothing
after it: a failure `e` of client acquisition, else of CRD registration, else
of listing, else of the picker (consulted in interactive mode with `GitUrl` or
`Owner` empty) is `Run`'s result, with the failing collaborator the last one
called and `modifyDevEnvironment` not invoked. When all succeed and the target
is resolved (both options given, or a non-empty name picked), `Run`'s result
is the result of `modifyDevEnvironment` invoked, once and last, with the
removal callback for the resolved target. -/
theorem run_propagates (d : Collaborators κ μ σ τ) (o : DeleteQuickstartLocationOptions) :
    (∀ e, d.JXClientAndDevNamespace = .error e →
      (Run d o).err = some e ∧
      (Run d o).trace = [Event.JXClientAndDevNamespace] ∧
      Event.modifyDevEnvironment ∉ (Run d o).trace) ∧
    (∀ c ns e, d.JXClientAndDevNamespace = .ok (c, ns) →
      d.registerEnvironmentCRD = some e →
      (Run d o).err = some e ∧
      (Run d o).trace = [Event.JXClientAndDevNamespace, Event.registerEnvironmentCRD] ∧
      Event.modifyDevEnvironment ∉ (Run d o).trace) ∧
    (∀ c ns e, d.JXClientAndDevNamespace = .ok (c, ns) →
      d.registerEnvironmentCRD = none →
      d.GetQuickstartLocations c ns = .error e →
      (Run d o).err = some e ∧
      (Run d o).trace = [Event.JXClientAndDevNamespace, Event.registerEnvironmentCRD,
        Event.GetQuickstartLocations] ∧
      Event.modifyDevEnvironment ∉ (Run d o).trace) ∧
    (∀ c ns locs e, d.JXClientAndDevNamespace = .ok (c, ns) →
      d.registerEnvironmentCRD = none →
      d.GetQuickstartLocations c ns = .ok locs →
      o.BatchMode = false → (o.GitUrl = "" ∨ o.Owner = "") →
      d.PickName (pickTable d locs).1 pickMessage = .error e →
      (Run d o).err = some e ∧
      (Run d o).trace = [Event.JXClientAndDevNamespace, Event.registerEnvironmentCRD,
        Event.GetQuickstartLocations, Event.PickName (pickTable d locs).1 pickMessage] ∧
      Event.modifyDevEnvironment ∉ (Run d o).trace) ∧
    (∀ c ns locs, d.JXClientAndDevNamespace = .ok (c, ns) →
      d.registerEnvironmentCRD = none →
      d.GetQuickstartLocations c ns = .ok locs →
      o.GitUrl ≠ "" → o.Owner ≠ "" →
      (Run d o).err = d.modifyDevEnvironment c ns (callback d o) ∧
      (Run d o).options = o ∧
      (Run d o).trace = [Event.JXClientAndDevNamespace, Event.registerEnvironmentCRD,
        Event.GetQuickstartLocations, Event.modifyDevEnvironment]) ∧
    (∀ c ns locs name, d.JXClientAndDevNamespace = .ok (c, ns) →
      d.registerEnvironmentCRD = none →
      d.GetQuickstartLocations c ns = .ok locs →
      o.BatchMode = false → (o.GitUrl = "" ∨ o.Owner = "") →
      d.PickName (pickTable d locs).1 pickMessage = .ok name → name ≠ "" →
      (Run d o).err = d.modifyDevEnvironment c ns (callback d (Run d o).options) ∧
      (Run d o).options =
        ⟨o.BatchMode, (mapIndex (pickTable d locs).2 name).GitURL,
          (mapIndex (pickTable d locs).2 name).Owner⟩ ∧
      (Run d o).trace = [Event.JXClientAndDevNamespace, Event.registerEnvironmentCRD,
        Event.GetQuickstartLocations, Event.PickName (pickTable d locs).1 pickMessage,
        Event.modifyDevEnvironment]) := by
  refine ⟨?_, ?_, ?_, ?_, ?_, ?_⟩
  · intro e hc
    rw [Run_client_error d o e hc]
    exact ⟨rfl, rfl, by simp⟩
  · intro c ns e hc hr
    rw [Run_crd_error d o c ns e hc hr]
    exact ⟨rfl, rfl, by simp⟩
  · intro c ns e hc hr hg
    rw [Run_list_error d o c ns e hc hr hg]
    exact ⟨rfl, rfl, by simp⟩
  · intro c ns locs e hc hr hg hb h hp
    rw [Run_pick_error d o c ns locs e hc hr hg hb h hp]
    exact ⟨rfl, rfl, by simp⟩
  · intro c ns locs hc hr hg hu hw
    rw [Run_given d o c ns locs hc hr hg hu hw]
    exact ⟨rfl, rfl, rfl⟩
  · intro c ns locs name hc hr hg hb h hp hn
    rw [Run_pick_ok d o c ns locs name hc hr hg hb h hp hn]
    exact ⟨rfl, rfl, rfl⟩

theorem run_propagates_witness :
    (Run (stubDeps (.error (Error.other "no cluster")) none (.ok []) (.ok "") none)
        ⟨false, "", ""⟩).err = some (Error.other "no cluster") ∧
    (Run (stubDeps (.ok ((), "jx")) (some (Error.other "no crd")) (.ok []) (.ok "") none)
        ⟨false, "", ""⟩).err = some (Error.other "no crd") ∧
    (Run (stubDeps (.ok ((), "jx")) none (.error (Error.other "no list")) (.ok "") none)
        ⟨false, "", ""⟩).err = some (Error.other "no list") ∧
    (Run (stubDeps (.ok ((), "jx")) none (.ok []) (.error (Error.other "no terminal")) none)
        ⟨false, "", ""⟩).err = some (Error.other "no terminal") ∧
    (Run (stubDeps (.ok ((), "jx")) none (.ok []) (.ok "") (some (Error.other "conflict")))
        ⟨true, "https://github.com", "acme"⟩).err = some (Error.other "conflict") ∧
    (Run (stubDeps (.ok ((), "jx")) none (.ok exampleLocations) (.ok "https://github.com/acme")
        (some (Error.other "conflict"))) ⟨false, "", ""⟩).err =
      some (Error.other "conflict") :=
  ⟨((run_propagates
      (stubDeps (.error (Error.other "no cluster")) none (.ok []) (.ok "") none)
      ⟨false, "", ""⟩).1 (Error.other "no cluster") rfl).1,
    ((run_propagates
      (stubDeps (.ok ((), "jx")) (some (Error.other "no crd")) (.ok []) (.ok "") none)
      ⟨false, "", ""⟩).2.1 () "jx" (Error.other "no crd") rfl rfl).1,
    ((run_propagates
      (stubDeps (.ok ((), "jx")) none (.error (Error.other "no list")) (.ok "") none)
      ⟨false, "", ""⟩).2.2.1 () "jx" (Error.other "no list") rfl rfl rfl).1,
    ((run_propagates
      (stubDeps (.ok ((), "jx")) none (.ok []) (.error (Error.other "no terminal")) none)
      ⟨false, "", ""⟩).2.2.2.1 () "jx" [] (Error.other "no terminal") rfl rfl rfl rfl
        (Or.inl rfl) rfl).1,
    ((run_propagates
      (stubDeps (.ok ((), "jx")) none (.ok []) (.ok "") (some (Error.other "conflict")))
      ⟨true, "https://github.com", "acme"⟩).2.2.2.2.1 () "jx" [] rfl rfl rfl
        (by decide) (by decide)).1,
    ((run_propagates
      (stubDeps (.ok ((), "jx")) none (.ok exampleLocations) (.ok "https://github.com/acme")
        (some (Error.other "conflict")))
      ⟨false, "", ""⟩).2.2.2.2.2 () "jx" exampleLocations "https://github.com/acme"
        rfl rfl rfl rfl (Or.inl rfl) rfl (by decide)).1⟩

/-! ## Batch mode with `--url` omitted -/

/-- C4, refuted as stated: built by `NewCmdDeleteQuickstartLocation` in batch
mode with `--url` omitted, `GitUrl` is the default `https://github.com`, not
the empty string. With `--owner acme` `Run` reaches the update helper and
returns no error; with `--owner` omitted too it fails with `MissingOption` for
the owner option, which is not the url option. -/
theorem run_batch_url_omitted_counterexample :
    (NewCmdDeleteQuickstartLocation true none (some "acme")).GitUrl = "https://github.com" ∧
    Run (sampleDeps exampleLocations (.ok ""))
        (NewCmdDeleteQuickstartLocation true none (some "acme")) =
      ⟨none, ⟨true, "https://github.com", "acme"⟩,
        [Event.JXClientAndDevNamespace, Event.registerEnvironmentCRD,
          Event.GetQuickstartLocations, Event.modifyDevEnvironment]⟩ ∧
    (Run (sampleDeps exampleLocations (.ok ""))
        (NewCmdDeleteQuickstartLocation true none none)).err =
      some (Error.missingOption optionOwner) ∧
    (Run (sampleDeps exampleLocations (.ok ""))
        (NewCmdDeleteQuickstartLocation true none none)).err ≠
      some (Error.missingOption optionGitUrl) := by
  refine ⟨rfl, rfl, rfl, by decide⟩

/-- C4, amended. In batch mode with the earlier steps succeeding, a command
built with `--url` omitted has `GitUrl` equal to the non-empty default, so
`Run` does not report the url option missing: it fails with `MissingOption`
for the owner option when the owner is omitted or empty, and otherwise returns
the result of the update helper for the target (default url, owner). For any
batch-mode options, `Run` itself (without reaching the update helper) reports
the url option missing exactly when `GitUrl` is the empty string. -/
theorem run_batch_url_omitted (d : Collaborators κ μ σ τ) (owner : Option String)
    (c : κ) (ns : String) (locs : List QuickStartLocation)
    (hc : d.JXClientAndDevNamespace = .ok (c, ns))
    (hr : d.registerEnvironmentCRD = none)
    (hg : d.GetQuickstartLocations c ns = .ok locs) :
    (NewCmdDeleteQuickstartLocation true none owner).GitUrl = GitHubURL ∧
    GitHubURL ≠ "" ∧
    (Run d (NewCmdDeleteQuickstartLocation true none owner)).err =
      (if owner.getD "" = "" then some (Error.missingOption optionOwner)
        else d.modifyDevEnvironment c ns (callback d ⟨true, GitHubURL, owner.getD ""⟩)) ∧
    ∀ o : DeleteQuickstartLocationOptions, o.BatchMode = true →
      (((Run d o).err = some (Error.missingOption optionGitUrl) ∧
          Event.modifyDevEnvironment ∉ (Run d o).trace) ↔
        o.GitUrl = "") := by
  have hdef : GitHubURL ≠ "" := by decide
  refine ⟨rfl, hdef, ?_, ?_⟩
  · by_cases hw : owner.getD "" = ""
    · have hrun := Run_batch_missing d (NewCmdDeleteQuickstartLocation true none owner) c ns
        locs hc hr hg rfl (Or.inr hw)
      rw [hrun, if_pos hw]
      have hu : (NewCmdDeleteQuickstartLocation true none owner).GitUrl ≠ "" := hdef
      simp only [if_neg hu]
    · have hrun := Run_given d (NewCmdDeleteQuickstartLocation true none owner) c ns
        locs hc hr hg hdef hw
      rw [hrun, if_neg hw]
      rfl
  · intro o hb
    constructor
    · rintro ⟨herr, htrace⟩
      by_contra hu
      by_cases hw : o.Owner = ""
      · rw [Run_batch_missing d o c ns locs hc hr hg hb (Or.inr hw)] at herr
        simp only [if_neg hu] at herr
        exact absurd herr (by decide)
      · rw [Run_given d o c ns locs hc hr hg hu hw] at htrace
        exact htrace (by simp [runUpdate])
    · intro hu
      rw [Run_batch_missing d o c ns locs hc hr hg hb (Or.inl hu)]
      simp [hu]

theorem run_batch_url_omitted_witness :
    (NewCmdDeleteQuickstartLocation true none (some "acme")).GitUrl = GitHubURL ∧
    GitHubURL ≠ "" ∧
    (Run (sampleDeps exampleLocations (.ok ""))
        (NewCmdDeleteQuickstartLocation true none (some "acme"))).err =
      (if (some "acme").getD "" = "" then some (Error.missingOption optionOwner)
        else (sampleDeps exampleLocations (.ok "")).modifyDevEnvironment () "jx"
          (callback (sampleDeps exampleLocations (.ok ""))
            ⟨true, GitHubURL, (some "acme").getD ""⟩)) ∧
    ∀ o : DeleteQuickstartLocationOptions, o.BatchMode = true →
      (((Run (sampleDeps exampleLocations (.ok "")) o).err =
            some (Error.missingOption optionGitUrl) ∧
          Event.modifyDevEnvironment ∉ (Run (sampleDeps exampleLocations (.ok "")) o).trace) ↔
        o.GitUrl = "") :=
  run_batch_url_omitted (sampleDeps exampleLocations (.ok "")) (some "acme") () "jx"
    exampleLocations rfl rfl rfl

end Jx
